import Mathlib

/-!
Verification development for the Mixed trading-monitor repository.

The embedding covers:
* the indicator computations (RSI with Wilder smoothing, Bollinger band
  statistics) used by the buy-signal check in `grok-yahoo2.py`;
* the scan-and-trade cycle of `grok-yahoo2.py` (loss-cut sell sweep,
  duplicate-holding guard, buy step);
* the day-gainers monitor of `grokyhoo.py` (ticker cleaning/validation,
  known-ticker delta, state persistence);
* the 0DTE scanner of `odte.py` (risk/reward scoring, position exit
  monitoring).

Numeric values are embedded as rationals; the single square root used by
the Bollinger lower band is handled by an exact rational decision
procedure `ltLowerBand` together with a bridge lemma relating it to the
real-number inequality.
-/

namespace Indicators

/-- Modelled from the spec: consecutive close-to-close changes used by the
RSI computation of the `technicalindicators` dependency (not part of
`src/`): element `i` is `closes[i+1] - closes[i]`. -/
def changes (closes : List ℚ) : List ℚ :=
  (closes.zip closes.tail).map fun p => p.2 - p.1

/-- Modelled from the spec: the gain contributed by one change (the change
itself when positive, otherwise `0`). -/
def gainOf (x : ℚ) : ℚ := max x 0

/-- Modelled from the spec: the loss contributed by one change (its
magnitude when negative, otherwise `0`). -/
def lossOf (x : ℚ) : ℚ := max (-x) 0

/-- Modelled from the spec: one step of Wilder's smoothing,
`avg' = (avg * (period - 1) + x) / period`. -/
def wilderStep (period : ℕ) (avg x : ℚ) : ℚ :=
  (avg * ((period : ℚ) - 1) + x) / (period : ℚ)

/-- Modelled from the spec: Wilder's smoothed average of a series — the
simple average of the first `period` entries, then `wilderStep` for each
later entry.  Returns `none` when fewer than `period` entries exist
(insufficient history). -/
def wilderSmooth (period : ℕ) (xs : List ℚ) : Option ℚ :=
  if period = 0 ∨ xs.length < period then none
  else some ((xs.drop period).foldl (wilderStep period) ((xs.take period).sum / (period : ℚ)))

/-- Modelled from the spec: the latest RSI value of a close series —
`100 - 100 / (1 + avgGain / avgLoss)` with Wilder-smoothed average gain
and loss, and `100` when the average loss is zero. -/
def rsiLast (period : ℕ) (closes : List ℚ) : Option ℚ :=
  match wilderSmooth period ((changes closes).map gainOf),
        wilderSmooth period ((changes closes).map lossOf) with
  | some g, some l => some (if l = 0 then 100 else 100 - 100 / (1 + g / l))
  | _, _ => none

/-- Simple moving average of a window (Bollinger middle band). -/
def sma (xs : List ℚ) : ℚ := xs.sum / (xs.length : ℚ)

/-- Population variance of a window, as used by the Bollinger band
standard deviation (`technicalindicators` divides by the period). -/
def popVar (xs : List ℚ) : ℚ :=
  ((xs.map fun x => (x - sma xs) ^ 2).sum) / (xs.length : ℚ)

/-- Exact rational decision of the Bollinger lower-band comparison
`c < m - 2 * sqrt v` (for `0 ≤ v`): it holds iff `m - c` is positive and
`4 * v < (m - c)^2`.  `ltLowerBand_iff` below proves the correspondence
with the real-number inequality computed by the source. -/
def ltLowerBand (c m v : ℚ) : Bool :=
  decide (0 < m - c) && decide (4 * v < (m - c) ^ 2)

end Indicators

namespace GrokYahoo2

open Indicators

/-- Fixed notional bought per position (`BUY_AMOUNT = 2000` in
`grok-yahoo2.py`). -/
def BUY_AMOUNT : ℚ := 2000

/-- Absolute loss threshold triggering the loss-cut sell
(`LOSS_THRESHOLD = 200` in `grok-yahoo2.py`). -/
def LOSS_THRESHOLD : ℚ := 200

/-- The last 50 closes of the fetched history (`closes.slice(-50)` in
`checkBuyCondition`). -/
def windowCloses (history : List ℚ) : List ℚ :=
  history.drop (history.length - 50)

/-- The window of the final Bollinger-band entry (`bb[bb.length - 1]`):
the last 20 closes of the 50-close window. -/
def bbWindow (closes : List ℚ) : List ℚ :=
  closes.drop (closes.length - 20)

/-- The latest close of the 50-close window
(`closes[closes.length - 1]`). -/
def currentClose (history : List ℚ) : ℚ :=
  (windowCloses history).getLastD 0

/-- The latest RSI value (`rsi[rsi.length - 1]`, period 14) of the
50-close window. -/
def rsiCurrent (history : List ℚ) : ℚ :=
  (rsiLast 14 (windowCloses history)).getD 0

/-- The previous RSI value (`rsi[rsi.length - 2]`): the running Wilder
RSI after all but the last close of the window. -/
def rsiPrevious (history : List ℚ) : ℚ :=
  (rsiLast 14 (windowCloses history).dropLast).getD 0

/-- The RSI edge condition of `checkBuyCondition`
(`lastRsi < 30 && prevRsi >= 30`). -/
def rsiDropped (currRsi prevRsi : ℚ) : Bool :=
  decide (currRsi < 30) && decide (30 ≤ prevRsi)

/-- The buy-signal check of `grok-yahoo2.py` (`checkBuyCondition`):
`false` when fewer than 50 bars of history exist, otherwise the RSI edge
condition together with the close sitting strictly below the lower
Bollinger band (period 20, two standard deviations) of the last 20
closes. -/
def checkBuyCondition (history : List ℚ) : Bool :=
  if history.length < 50 then false
  else
    rsiDropped (rsiCurrent history) (rsiPrevious history) &&
      ltLowerBand (currentClose history)
        (sma (bbWindow (windowCloses history)))
        (popVar (bbWindow (windowCloses history)))

/-- One entry of the portfolio built by `scanAndTrade` (the `buyTime`
field of the source, a wall-clock date, is omitted). -/
structure StockPosition where
  symbol : String
  buyPrice : ℚ
  shares : ℚ
  buyValue : ℚ
deriving DecidableEq

/-- The loss-cut test of the sell sweep:
`currValue <= BUY_AMOUNT - LOSS_THRESHOLD` with
`currValue = currPrice * pos.shares`. -/
def lossCut (price : ℚ) (pos : StockPosition) : Bool :=
  decide (price * pos.shares ≤ BUY_AMOUNT - LOSS_THRESHOLD)

/-- The sell sweep of `scanAndTrade`: every held position whose current
price is available (and non-zero — a zero price is falsy in the source
and skipped) and whose current value has dropped to the loss threshold
is removed (sold); all other positions are kept. -/
def sellSweep (prices : String → Option ℚ) (portfolio : List StockPosition) :
    List StockPosition :=
  portfolio.filter fun pos =>
    match prices pos.symbol with
    | none => true
    | some price => if price = 0 then true else !(lossCut price pos)

/-- External market data consumed by one scan: per-symbol close history
(`getHistorical`) and per-symbol quote (`getQuote`, `none` models both a
fetch failure and a null price). -/
structure MarketEnv where
  histories : String → List ℚ
  quotes : String → Option ℚ

/-- One iteration of the buy loop of `scanAndTrade` for one trending
symbol: skip if the symbol is already held, otherwise buy
`BUY_AMOUNT / price` shares when `checkBuyCondition` fires and a
(non-falsy) quote is available. -/
def buyStep (env : MarketEnv) (portfolio : List StockPosition) (symbol : String) :
    List StockPosition :=
  if portfolio.any fun p => p.symbol == symbol then portfolio
  else if checkBuyCondition (env.histories symbol) then
    match env.quotes symbol with
    | none => portfolio
    | some price =>
        if price = 0 then portfolio
        else portfolio ++ [{ symbol := symbol, buyPrice := price,
                             shares := BUY_AMOUNT / price, buyValue := BUY_AMOUNT }]
  else portfolio

/-- The buy loop of `scanAndTrade` over the trending list. -/
def scanBuys (env : MarketEnv) (trending : List String)
    (portfolio : List StockPosition) : List StockPosition :=
  trending.foldl (buyStep env) portfolio

/-- One full `scanAndTrade` cycle: the sell sweep over current prices,
then the buy loop over the S&P-500-filtered trending symbols. -/
def scanAndTrade (prices : String → Option ℚ) (env : MarketEnv)
    (trending : List String) (portfolio : List StockPosition) :
    List StockPosition :=
  scanBuys env trending (sellSweep prices portfolio)

/-- The portfolio after `n` sell sweeps applied to an initial portfolio,
with per-cycle price maps (the repeated sell-check half of the scan
loop). -/
def portfolioAfter (prices : ℕ → String → Option ℚ)
    (init : List StockPosition) : ℕ → List StockPosition
  | 0 => init
  | n + 1 => sellSweep (prices n) (portfolioAfter prices init n)

/-- Portfolios reachable from the empty initial portfolio through
`scanAndTrade` cycles with arbitrary market data. -/
inductive ReachableState : List StockPosition → Prop where
  | init : ReachableState []
  | step : ∀ {pf : List StockPosition} (prices : String → Option ℚ)
      (env : MarketEnv) (trending : List String),
      ReachableState pf → ReachableState (scanAndTrade prices env trending pf)

end GrokYahoo2

namespace GrokYhoo

/-- A ticker symbol, embedded as its character sequence so that the
character-level cleaning of `fetch_tickers` can be stated directly. -/
abbrev Ticker := List Char

/-- The symbol cleaning of `fetch_tickers`
(`symbol.split('.')[0]` — everything before the first dot). -/
def cleanSymbol (s : Ticker) : Ticker :=
  s.takeWhile fun c => c != '.'

/-- Python's `str.isalnum`: non-empty and every character
alphanumeric. -/
def pyIsAlnum (s : Ticker) : Bool :=
  !s.isEmpty && s.all fun c => c.isAlphanum

/-- The validation applied by `fetch_tickers` after cleaning:
`symbol and len(symbol) <= 6 and
 symbol.replace('-', '').replace('.', '').isalnum()`. -/
def tickerValid (s : Ticker) : Bool :=
  !s.isEmpty && decide (s.length ≤ 6) &&
    pyIsAlnum (s.filter fun c => c != '-' && c != '.')

/-- The parsing half of `fetch_tickers`: clean each raw quote symbol and
keep exactly the ones passing validation (as a set, mirroring the Python
`set`). -/
def fetch_tickers (raw : List Ticker) : Finset Ticker :=
  ((raw.map cleanSymbol).filter fun s => tickerValid s).toFinset

/-- The validation properties of a stored ticker, spelled out: it is
non-empty, at most six characters long, every character left after
removing dashes and dots is alphanumeric, and the exchange suffix has
been stripped (no dot remains). -/
def validatedTicker (t : Ticker) : Prop :=
  t ≠ [] ∧ t.length ≤ 6 ∧
    (∀ c ∈ t.filter fun c => c != '-' && c != '.', c.isAlphanum = true) ∧
    '.' ∉ t

/-- State of the `TickerMonitorAgent`: the in-memory `known_tickers` set
and the contents of the `ticker_state.json` file (`persisted`). -/
structure AgentState where
  known : Finset Ticker
  persisted : Finset Ticker
deriving DecidableEq

/-- One `check_for_new_tickers` cycle of `grokyhoo.py` applied to a
fetched current set: return early on an empty fetch; otherwise compute
the delta `current - known`, and when it is non-empty announce it,
merge it into the in-memory known set and attempt `save_state` —
`saveOk` tells whether the file write succeeds; on failure the exception
is caught and logged, leaving the file contents unchanged.  The result
is the new agent state paired with the announced set. -/
def check_for_new_tickers (s : AgentState) (current : Finset Ticker)
    (saveOk : Bool) : AgentState × Finset Ticker :=
  if current = ∅ then (s, ∅)
  else
    let newTickers := current \ s.known
    if newTickers = ∅ then (s, ∅)
    else
      let known' := s.known ∪ newTickers
      ({ known := known',
         persisted := if saveOk then known' else s.persisted }, newTickers)

/-- The agent state after `n` monitor cycles, driven by per-cycle
fetched sets and per-cycle save outcomes. -/
def agentStates (s0 : AgentState) (current : ℕ → Finset Ticker)
    (ok : ℕ → Bool) : ℕ → AgentState
  | 0 => s0
  | n + 1 =>
      (check_for_new_tickers (agentStates s0 current ok n) (current n) (ok n)).1

/-- The set announced during cycle `n` of the monitor loop. -/
def announcedAt (s0 : AgentState) (current : ℕ → Finset Ticker)
    (ok : ℕ → Bool) (n : ℕ) : Finset Ticker :=
  (check_for_new_tickers (agentStates s0 current ok n) (current n) (ok n)).2

end GrokYhoo

namespace Odte

/-- Lifecycle of a monitored option position.  In `odte.py`, a closed
position is sold via `_close_position` with reason `"stop_loss"` or
`"take_profit"` and removed from the list; the embedding records the
outcome as a terminal status instead. -/
inductive PosStatus where
  | OPEN
  | CLOSED_STOP
  | CLOSED_TARGET
deriving DecidableEq

/-- A position stored by `execute_trade` for monitoring. -/
structure OptionPosition where
  symbol : String
  contracts : ℕ
  entry_price : ℚ
  stop_loss : ℚ
  take_profit : ℚ
  status : PosStatus
deriving DecidableEq

/-- One position's treatment inside `monitor_positions`: with no quote
available (the `get_quote` call raising — caught and logged) the
position is left untouched; with a current price, the stop-loss test
`current_price <= stop_loss` runs first, then the take-profit test
`current_price >= take_profit`, and otherwise the position stays
open. -/
def monitorStep (prices : String → Option ℚ) (p : OptionPosition) :
    OptionPosition :=
  if p.status = PosStatus.OPEN then
    match prices p.symbol with
    | none => p
    | some price =>
        if price ≤ p.stop_loss then { p with status := PosStatus.CLOSED_STOP }
        else if p.take_profit ≤ price then { p with status := PosStatus.CLOSED_TARGET }
        else p
  else p

/-- The `monitor_positions` pass over the whole position list. -/
def monitor_positions (prices : String → Option ℚ)
    (ps : List OptionPosition) : List OptionPosition :=
  ps.map (monitorStep prices)

/-- Option side of a scanned contract row. -/
inductive OptionSide where
  | call
  | put
deriving DecidableEq

/-- The fields of a candidate row consumed by
`calculate_risk_reward`. -/
structure OptionRow where
  lastPrice : ℚ
  impliedVolatility : ℚ
  strike : ℚ
  option_type : OptionSide

/-- Python's division as used on the row fields, fallible: it produces
no value when the divisor is zero (a `ZeroDivisionError` for plain
floats; for numpy operands a non-finite value that poisons every score
computed from it), and the exact quotient otherwise. -/
def pyDiv (a b : ℚ) : Option ℚ :=
  if b = 0 then none else some (a / b)

/-- The risk/reward score of `calculate_risk_reward` in `odte.py`: the
underlying price is estimated as `lastPrice * 100 / impliedVolatility`
with no guard on the implied volatility, so a zero-IV row produces no
well-defined score (`none`).  Otherwise a call's potential reward is
`impliedVolatility * underlying * 0.1`, a put's is `strike - lastPrice`
floored at `0`, and the ratio is `reward / lastPrice` guarded to `0`
when the premium is not strictly positive. -/
def calculate_risk_reward (row : OptionRow) : Option ℚ :=
  match pyDiv (row.lastPrice * 100) row.impliedVolatility with
  | none => none
  | some underlying_price =>
    match row.option_type with
    | OptionSide.call =>
        let potential_reward := row.impliedVolatility * underlying_price * (1 / 10)
        some (if 0 < row.lastPrice then potential_reward / row.lastPrice else 0)
    | OptionSide.put =>
        let potential_reward :=
          if row.lastPrice < row.strike then row.strike - row.lastPrice else 0
        some (if 0 < row.lastPrice then potential_reward / row.lastPrice else 0)

end Odte

namespace Indicators

theorem changes_length (closes : List ℚ) :
    (changes closes).length = closes.length - 1 := by
  simp [changes]

theorem foldl_wilderStep_nonneg (period : ℕ) (hp : period ≠ 0) :
    ∀ (l : List ℚ) (a : ℚ), 0 ≤ a → (∀ x ∈ l, 0 ≤ x) →
      0 ≤ l.foldl (wilderStep period) a := by
  intro l
  induction l with
  | nil => intro a ha _; simpa using ha
  | cons y t ih =>
    intro a ha hx
    simp only [List.foldl_cons]
    apply ih
    · have hp1 : (1 : ℚ) ≤ (period : ℚ) := by exact_mod_cast Nat.one_le_iff_ne_zero.mpr hp
      have hy : 0 ≤ y := hx y (List.mem_cons_self y t)
      have hnum : 0 ≤ a * ((period : ℚ) - 1) + y := by
        have := mul_nonneg ha (by linarith : (0 : ℚ) ≤ (period : ℚ) - 1)
        linarith
      exact div_nonneg hnum (by positivity)
    · intro x hx'; exact hx x (List.mem_cons_of_mem y hx')

theorem foldl_wilderStep_zero (period : ℕ) :
    ∀ l : List ℚ, (∀ x ∈ l, x = 0) → l.foldl (wilderStep period) 0 = 0 := by
  intro l
  induction l with
  | nil => intro _; rfl
  | cons y t ih =>
    intro hx
    have hy : y = 0 := hx y (List.mem_cons_self y t)
    simp only [List.foldl_cons, hy, wilderStep, zero_mul, zero_add, zero_div]
    exact ih fun x hx' => hx x (List.mem_cons_of_mem y hx')

theorem wilderSmooth_isSome (period : ℕ) (xs : List ℚ)
    (hp : period ≠ 0) (h : period ≤ xs.length) :
    ∃ a, wilderSmooth period xs = some a := by
  rw [wilderSmooth, if_neg (by push_neg; exact ⟨hp, by omega⟩)]
  exact ⟨_, rfl⟩

theorem wilderSmooth_nonneg (period : ℕ) (xs : List ℚ) (a : ℚ)
    (h : wilderSmooth period xs = some a) (hx : ∀ x ∈ xs, 0 ≤ x) : 0 ≤ a := by
  rw [wilderSmooth] at h
  split at h
  · exact absurd h (by simp)
  · rename_i hguard
    push_neg at hguard
    have ha := h
    injection ha with ha
    subst ha
    apply foldl_wilderStep_nonneg period hguard.1
    · apply div_nonneg
      · exact List.sum_nonneg fun x hmem => hx x (List.take_subset _ _ hmem)
      · positivity
    · intro x hmem; exact hx x (List.drop_subset _ _ hmem)

theorem wilderSmooth_allzero (period : ℕ) (xs : List ℚ) (a : ℚ)
    (h : wilderSmooth period xs = some a) (hx : ∀ x ∈ xs, x = 0) : a = 0 := by
  rw [wilderSmooth] at h
  split at h
  · exact absurd h (by simp)
  · have ha := h
    injection ha with ha
    have hinit : ((xs.take period).sum / (period : ℚ)) = 0 := by
      have : (xs.take period).sum = 0 :=
        List.sum_eq_zero fun x hmem => hx x (List.take_subset _ _ hmem)
      rw [this, zero_div]
    rw [hinit] at ha
    rw [← ha]
    exact foldl_wilderStep_zero period _ fun x hmem => hx x (List.drop_subset _ _ hmem)

theorem popVar_nonneg (xs : List ℚ) : 0 ≤ popVar xs := by
  apply div_nonneg
  · exact List.sum_nonneg fun x hmem => by
      obtain ⟨y, -, rfl⟩ := List.mem_map.1 hmem
      positivity
  · positivity

theorem ltLowerBand_iff (c m v : ℚ) (hv : 0 ≤ v) :
    ltLowerBand c m v = true ↔
      (c : ℝ) < (m : ℝ) - 2 * Real.sqrt (v : ℝ) := by
  rw [ltLowerBand, Bool.and_eq_true, decide_eq_true_iff, decide_eq_true_iff]
  have hv' : (0 : ℝ) ≤ (v : ℝ) := by exact_mod_cast hv
  constructor
  · rintro ⟨h1, h2⟩
    have h1' : (0 : ℝ) < (m : ℝ) - (c : ℝ) := by exact_mod_cast h1
    have h2' : 4 * (v : ℝ) < ((m : ℝ) - (c : ℝ)) ^ 2 := by exact_mod_cast h2
    have hhalf : (0 : ℝ) < ((m : ℝ) - (c : ℝ)) / 2 := by linarith
    have hlt : (v : ℝ) < (((m : ℝ) - (c : ℝ)) / 2) ^ 2 := by nlinarith
    have := (Real.sqrt_lt' hhalf).2 hlt
    linarith
  · intro h
    have hs : 0 ≤ Real.sqrt (v : ℝ) := Real.sqrt_nonneg _
    have h1' : (0 : ℝ) < (m : ℝ) - (c : ℝ) := by linarith
    have hhalf : (0 : ℝ) < ((m : ℝ) - (c : ℝ)) / 2 := by linarith
    have hsq : Real.sqrt (v : ℝ) < ((m : ℝ) - (c : ℝ)) / 2 := by linarith
    have hlt : (v : ℝ) < (((m : ℝ) - (c : ℝ)) / 2) ^ 2 := (Real.sqrt_lt' hhalf).1 hsq
    constructor
    · exact_mod_cast h1'
    · have : 4 * (v : ℝ) < ((m : ℝ) - (c : ℝ)) ^ 2 := by nlinarith
      exact_mod_cast this

end Indicators

namespace GrokYhoo

theorem check_delta (s : AgentState) (current : Finset Ticker) (saveOk : Bool) :
    (check_for_new_tickers s current saveOk).2 = current \ s.known := by
  by_cases hc : current = ∅
  · subst hc; simp [check_for_new_tickers]
  · by_cases hn : current \ s.known = ∅
    · rw [check_for_new_tickers, if_neg hc]
      simp only [hn, if_pos]
    · rw [check_for_new_tickers, if_neg hc]
      simp only [hn, if_neg, ite_false]

theorem check_known (s : AgentState) (current : Finset Ticker) (saveOk : Bool) :
    (check_for_new_tickers s current saveOk).1.known =
      s.known ∪ (current \ s.known) := by
  by_cases hc : current = ∅
  · subst hc; simp [check_for_new_tickers]
  · by_cases hn : current \ s.known = ∅
    · rw [check_for_new_tickers, if_neg hc]
      simp only [hn, if_pos]
      rw [Finset.union_empty]
    · rw [check_for_new_tickers, if_neg hc]
      simp only [hn, if_neg, ite_false]

theorem check_persisted_failed (s : AgentState) (current : Finset Ticker) :
    (check_for_new_tickers s current false).1.persisted = s.persisted := by
  by_cases hc : current = ∅
  · subst hc; simp [check_for_new_tickers]
  · by_cases hn : current \ s.known = ∅
    · rw [check_for_new_tickers, if_neg hc]
      simp only [hn, if_pos]
    · rw [check_for_new_tickers, if_neg hc]
      simp only [hn, if_neg, ite_false, Bool.false_eq_true]

theorem check_persisted_cases (s : AgentState) (current : Finset Ticker)
    (saveOk : Bool) :
    (check_for_new_tickers s current saveOk).1.persisted = s.persisted ∨
      (check_for_new_tickers s current saveOk).1.persisted =
        (check_for_new_tickers s current saveOk).1.known := by
  by_cases hc : current = ∅
  · left; subst hc; simp [check_for_new_tickers]
  · by_cases hn : current \ s.known = ∅
    · left
      rw [check_for_new_tickers, if_neg hc]
      simp only [hn, if_pos]
    · cases saveOk
      · left
        exact check_persisted_failed s current
      · right
        rw [check_for_new_tickers, if_neg hc]
        simp only [hn, if_neg, ite_false, ite_true]

theorem check_known_mono (s : AgentState) (current : Finset Ticker)
    (saveOk : Bool) : s.known ⊆ (check_for_new_tickers s current saveOk).1.known := by
  rw [check_known]
  exact Finset.subset_union_left

theorem agentStates_known_mono (s0 : AgentState) (current : ℕ → Finset Ticker)
    (ok : ℕ → Bool) {n m : ℕ} (h : n ≤ m) :
    (agentStates s0 current ok n).known ⊆ (agentStates s0 current ok m).known := by
  induction h with
  | refl => exact Finset.Subset.refl _
  | step h ih =>
      exact fun t ht => check_known_mono _ _ _ (ih ht)

theorem mem_cleanSymbol {c : Char} {s : Ticker} (h : c ∈ cleanSymbol s) :
    c ≠ '.' := by
  rw [cleanSymbol] at h
  simpa using List.mem_takeWhile_imp h

theorem fetch_tickers_validated (raw : List Ticker) (t : Ticker)
    (h : t ∈ fetch_tickers raw) : validatedTicker t := by
  rw [fetch_tickers, List.mem_toFinset, List.mem_filter] at h
  obtain ⟨hmem, hvalid⟩ := h
  obtain ⟨q, -, rfl⟩ := List.mem_map.1 hmem
  rw [tickerValid, Bool.and_eq_true, Bool.and_eq_true] at hvalid
  obtain ⟨⟨hne, hlen⟩, haln⟩ := hvalid
  refine ⟨?_, ?_, ?_, ?_⟩
  · intro hnil
    rw [hnil] at hne
    simp at hne
  · exact of_decide_eq_true hlen
  · intro c hc
    rw [pyIsAlnum, Bool.and_eq_true] at haln
    exact List.all_eq_true.1 haln.2 c hc
  · intro hdot
    exact absurd rfl (mem_cleanSymbol hdot)

end GrokYhoo

namespace GrokYahoo2

theorem checkBuy_short (history : List ℚ) (h : history.length < 50) :
    checkBuyCondition history = false := by
  rw [checkBuyCondition, if_pos h]

theorem buyStep_of_not_signal (env : MarketEnv) (pf : List StockPosition)
    (sym : String) (h : checkBuyCondition (env.histories sym) = false) :
    buyStep env pf sym = pf := by
  rw [buyStep]
  by_cases hany : (pf.any fun p => p.symbol == sym) = true
  · rw [if_pos hany]
  · rw [if_neg hany, if_neg (by simp [h])]

theorem sellSweep_symbols_nodup (prices : String → Option ℚ)
    (pf : List StockPosition) (h : (pf.map StockPosition.symbol).Nodup) :
    ((sellSweep prices pf).map StockPosition.symbol).Nodup :=
  List.Nodup.sublist (List.Sublist.map _ (List.filter_sublist _)) h

theorem buyStep_symbols_nodup (env : MarketEnv) (pf : List StockPosition)
    (sym : String) (h : (pf.map StockPosition.symbol).Nodup) :
    ((buyStep env pf sym).map StockPosition.symbol).Nodup := by
  rw [buyStep]
  by_cases hany : (pf.any fun p => p.symbol == sym) = true
  · rw [if_pos hany]; exact h
  · rw [if_neg hany]
    by_cases hbuy : checkBuyCondition (env.histories sym) = true
    · rw [if_pos hbuy]
      cases hqv : env.quotes sym with
      | none => exact h
      | some price =>
        show (List.map StockPosition.symbol
          (if price = 0 then pf
           else pf ++ [⟨sym, price, BUY_AMOUNT / price, BUY_AMOUNT⟩])).Nodup
        by_cases hz : price = 0
        · rw [if_pos hz]; exact h
        · rw [if_neg hz, List.map_append, List.nodup_append]
          refine ⟨h, List.nodup_singleton _, ?_⟩
          intro a ha hb
          obtain ⟨p, hp, hps⟩ := List.mem_map.1 ha
          have hb' : a = sym := by simpa using hb
          rw [Bool.not_eq_true] at hany
          have hnone := List.any_eq_false.1 hany p hp
          apply hnone
          rw [beq_iff_eq, hps, hb']
    · rw [if_neg hbuy]; exact h

theorem scanBuys_symbols_nodup (env : MarketEnv) (trending : List String) :
    ∀ pf : List StockPosition, (pf.map StockPosition.symbol).Nodup →
      ((scanBuys env trending pf).map StockPosition.symbol).Nodup := by
  induction trending with
  | nil => intro pf h; exact h
  | cons sym rest ih =>
    intro pf h
    rw [scanBuys, List.foldl_cons]
    exact ih _ (buyStep_symbols_nodup env pf sym h)

theorem buyStep_mem (env : MarketEnv) (pf : List StockPosition) (sym : String)
    (p : StockPosition) (hmem : p ∈ buyStep env pf sym) :
    p ∈ pf ∨ p.buyValue = BUY_AMOUNT := by
  rw [buyStep] at hmem
  by_cases hany : (pf.any fun p' => p'.symbol == sym) = true
  · rw [if_pos hany] at hmem; exact Or.inl hmem
  · rw [if_neg hany] at hmem
    by_cases hbuy : checkBuyCondition (env.histories sym) = true
    · rw [if_pos hbuy] at hmem
      cases hqv : env.quotes sym with
      | none => rw [hqv] at hmem; exact Or.inl hmem
      | some price =>
        rw [hqv] at hmem
        have hmem' : p ∈ (if price = 0 then pf
            else pf ++ [⟨sym, price, BUY_AMOUNT / price, BUY_AMOUNT⟩]) := hmem
        by_cases hz : price = 0
        · rw [if_pos hz] at hmem'; exact Or.inl hmem'
        · rw [if_neg hz] at hmem'
          rcases List.mem_append.1 hmem' with hin | hin
          · exact Or.inl hin
          · right
            rw [List.mem_singleton.1 hin]
    · rw [if_neg hbuy] at hmem; exact Or.inl hmem

theorem sellSweep_single (q : ℚ) (pos : StockPosition) (hq : q ≠ 0) :
    sellSweep (fun _ => some q) [pos] =
      if lossCut q pos = true then [] else [pos] := by
  by_cases hc : lossCut q pos = true
  · simp [sellSweep, hq, hc]
  · rw [Bool.not_eq_true] at hc
    simp [sellSweep, hq, hc]

theorem portfolioAfter_single (q : ℕ → ℚ) (pos : StockPosition)
    (hq : ∀ k, q k ≠ 0) :
    ∀ n : ℕ, portfolioAfter (fun k _ => some (q k)) [pos] n =
      if ∀ m < n, lossCut (q m) pos = false then [pos] else [] := by
  intro n
  induction n with
  | zero => simp [portfolioAfter]
  | succ n ih =>
    rw [portfolioAfter, ih]
    by_cases h1 : ∀ m < n, lossCut (q m) pos = false
    · rw [if_pos h1, sellSweep_single (q n) pos (hq n)]
      by_cases h2 : lossCut (q n) pos = true
      · rw [if_pos h2, if_neg]
        intro hfa
        rw [hfa n (Nat.lt_succ_self n)] at h2
        exact Bool.false_ne_true h2
      · have h2f : lossCut (q n) pos = false := Bool.not_eq_true _ ▸ h2
        rw [if_neg h2, if_pos]
        intro m hm
        rcases Nat.lt_succ_iff_lt_or_eq.1 hm with h | h
        · exact h1 m h
        · rw [h]; exact h2f
    · rw [if_neg h1]
      have h1' : ¬∀ m < n + 1, lossCut (q m) pos = false := by
        intro hfa
        exact h1 fun m hm => hfa m (Nat.lt_succ_of_lt hm)
      rw [if_neg h1']
      rfl

end GrokYahoo2

section Claims

open Indicators GrokYahoo2 GrokYhoo Odte

/-- C6: the delta computed by a monitor cycle is the set difference
`current - known`; a second cycle with the same current set right after
a commit announces nothing; and once committed (in any cycle), a symbol
is never announced again in any later cycle. -/
theorem delta_set_difference_idempotent :
    (∀ (s : AgentState) (current : Finset Ticker) (saveOk : Bool),
        (check_for_new_tickers s current saveOk).2 = current \ s.known)
    ∧ (∀ (s : AgentState) (current : Finset Ticker) (ok1 ok2 : Bool),
        (check_for_new_tickers
          (check_for_new_tickers s current ok1).1 current ok2).2 = ∅)
    ∧ (∀ (s0 : AgentState) (current : ℕ → Finset Ticker) (ok : ℕ → Bool)
        (n m : ℕ), n < m →
        Disjoint (announcedAt s0 current ok n) (announcedAt s0 current ok m)) := by
  refine ⟨check_delta, ?_, ?_⟩
  · intro s current ok1 ok2
    rw [check_delta, check_known, Finset.union_sdiff_self_eq_union,
      Finset.sdiff_eq_empty_iff_subset]
    exact Finset.subset_union_right
  · intro s0 current ok n m hnm
    have h1 : announcedAt s0 current ok n ⊆
        (agentStates s0 current ok (n + 1)).known := by
      rw [announcedAt, check_delta, agentStates, check_known]
      exact Finset.subset_union_right
    have h2 : (agentStates s0 current ok (n + 1)).known ⊆
        (agentStates s0 current ok m).known :=
      agentStates_known_mono s0 current ok hnm
    have h3 : Disjoint ((agentStates s0 current ok m).known)
        (announcedAt s0 current ok m) := by
      rw [announcedAt, check_delta]
      exact Finset.disjoint_sdiff
    exact h3.mono_left (h1.trans h2)

/-- C6 witness: at a concrete one-ticker run, cycles 0 and 2 with the
same current set announce disjoint sets. -/
theorem delta_set_difference_idempotent_witness :
    Disjoint
      (announcedAt ⟨∅, ∅⟩ (fun _ => {['T','S','L','A']}) (fun _ => true) 0)
      (announcedAt ⟨∅, ∅⟩ (fun _ => {['T','S','L','A']}) (fun _ => true) 2) :=
  delta_set_difference_idempotent.2.2 ⟨∅, ∅⟩ _ _ 0 2 (by decide)

/-- C2 counterexample: starting from an empty state, a cycle that
fetches `{TSLA}` while the state save fails announces `TSLA` and leaves
the state file empty — yet the next cycle with the same fetch announces
nothing, so the failed persistence does NOT cause the item to be
re-produced. -/
theorem dedup_commit_crash_safety_refuted :
    (check_for_new_tickers ⟨∅, ∅⟩ {['T','S','L','A']} false).2 =
      {['T','S','L','A']}
    ∧ (check_for_new_tickers ⟨∅, ∅⟩ {['T','S','L','A']} false).1.persisted = ∅
    ∧ (check_for_new_tickers
        (check_for_new_tickers ⟨∅, ∅⟩ {['T','S','L','A']} false).1
        {['T','S','L','A']} false).2 = ∅ := by
  refine ⟨?_, ?_, ?_⟩ <;> decide

/-- C2 (amended): `check_for_new_tickers` merges the delta into the
in-memory known set whether or not `save_state` succeeds; a failed save
leaves only the state file stale, the next cycle with the same current
set announces nothing (no re-alert within the process), and the
un-persisted items are re-announced only by a run that starts from the
stale persisted state (a process restart). -/
theorem dedup_commit_in_memory_regardless :
    (∀ (s : AgentState) (current : Finset Ticker) (saveOk : Bool),
        (check_for_new_tickers s current saveOk).1.known =
          s.known ∪ (current \ s.known))
    ∧ (∀ (s : AgentState) (current : Finset Ticker),
        (check_for_new_tickers s current false).1.persisted = s.persisted)
    ∧ (∀ (s : AgentState) (current : Finset Ticker) (ok2 : Bool),
        (check_for_new_tickers
          (check_for_new_tickers s current false).1 current ok2).2 = ∅)
    ∧ (∀ (s : AgentState) (current : Finset Ticker) (ok2 : Bool),
        (check_for_new_tickers
          ⟨(check_for_new_tickers s current false).1.persisted,
           (check_for_new_tickers s current false).1.persisted⟩
          current ok2).2 = current \ s.persisted) := by
  refine ⟨check_known, check_persisted_failed, ?_, ?_⟩
  · intro s current ok2
    rw [check_delta, check_known, Finset.union_sdiff_self_eq_union,
      Finset.sdiff_eq_empty_iff_subset]
    exact Finset.subset_union_right
  · intro s current ok2
    rw [check_delta, check_persisted_failed]

/-- C9 counterexample: a call row with positive premium (`lastPrice = 1`)
and zero implied volatility hits the unguarded division and produces no
score at all — in particular no non-negative one — refuting the claimed
totality and non-negativity of the scoring. -/
theorem risk_reward_zero_iv_refuted :
    calculate_risk_reward ⟨1, 0, 5, OptionSide.call⟩ = none := by
  simp [calculate_risk_reward, pyDiv]

/-- C9 (amended): the scoring is not total — the division by
`impliedVolatility` is unguarded, so a zero-IV candidate yields no
score — but on every candidate with non-zero implied volatility it is
defined and non-negative: a non-positive premium gives `0` instead of a
division by zero, and a put whose strike does not exceed the premium
has its reward floored to `0`, giving score `0`. -/
theorem risk_reward_guarded_nonneg :
    (∀ row : OptionRow, row.impliedVolatility ≠ 0 →
        ∃ r : ℚ, calculate_risk_reward row = some r ∧ 0 ≤ r)
    ∧ (∀ row : OptionRow, row.impliedVolatility ≠ 0 → row.lastPrice ≤ 0 →
        calculate_risk_reward row = some 0)
    ∧ (∀ row : OptionRow, row.impliedVolatility ≠ 0 →
        row.option_type = OptionSide.put → row.strike ≤ row.lastPrice →
        calculate_risk_reward row = some 0) := by
  refine ⟨?_, ?_, ?_⟩
  · intro row hiv
    cases hside : row.option_type
    · have heq : calculate_risk_reward row =
          some (if 0 < row.lastPrice then
            row.impliedVolatility * (row.lastPrice * 100 / row.impliedVolatility) *
              (1 / 10) / row.lastPrice
          else 0) := by
        simp only [calculate_risk_reward, pyDiv, if_neg hiv, hside]
      refine ⟨_, heq, ?_⟩
      by_cases hlp : 0 < row.lastPrice
      · rw [if_pos hlp]
        apply div_nonneg _ hlp.le
        rw [mul_comm row.impliedVolatility, div_mul_cancel₀ _ hiv]
        linarith
      · rw [if_neg hlp]
    · have heq : calculate_risk_reward row =
          some (if 0 < row.lastPrice then
            (if row.lastPrice < row.strike then row.strike - row.lastPrice
             else 0) / row.lastPrice
          else 0) := by
        simp only [calculate_risk_reward, pyDiv, if_neg hiv, hside]
      refine ⟨_, heq, ?_⟩
      by_cases hlp : 0 < row.lastPrice
      · rw [if_pos hlp]
        apply div_nonneg _ hlp.le
        split
        · rename_i hlt
          linarith
        · exact le_refl 0
      · rw [if_neg hlp]
  · intro row hiv hle
    cases hside : row.option_type <;>
      simp only [calculate_risk_reward, pyDiv, if_neg hiv, hside] <;>
      rw [if_neg (not_lt.2 hle)]
  · intro row hiv hput hsk
    simp only [calculate_risk_reward, pyDiv, if_neg hiv, hput]
    rw [if_neg (not_lt.2 hsk)]
    by_cases hlp : 0 < row.lastPrice
    · rw [if_pos hlp, zero_div]
    · rw [if_neg hlp]

/-- C9 witness: with non-zero implied volatility, a concrete call row
gets a non-negative score, a negative-premium call scores `some 0`, and
a put with strike at the premium scores `some 0`. -/
theorem risk_reward_guarded_nonneg_witness :
    (∃ r : ℚ, calculate_risk_reward ⟨4, 1, 5, OptionSide.call⟩ = some r ∧
        0 ≤ r) ∧
      calculate_risk_reward ⟨-1, 1, 5, OptionSide.call⟩ = some 0 ∧
      calculate_risk_reward ⟨2, 1, 2, OptionSide.put⟩ = some 0 :=
  ⟨risk_reward_guarded_nonneg.1 _ (by norm_num),
   risk_reward_guarded_nonneg.2.1 _ (by norm_num) (by norm_num),
   risk_reward_guarded_nonneg.2.2 _ (by norm_num) rfl (by norm_num)⟩

/-- C3: `monitor_positions` treats each position independently; every
OPEN position with a known current price moves to `CLOSED_STOP` when
`price <= stop_loss` (checked first, even if the take-profit level is
also met), to `CLOSED_TARGET` when the stop is not hit and
`price >= take_profit`, and otherwise stays exactly as it was; an OPEN
position with no current price this cycle is left completely
unchanged. -/
theorem exit_evaluation_transitions :
    (∀ (prices : String → Option ℚ) (ps : List OptionPosition),
        monitor_positions prices ps = ps.map (monitorStep prices))
    ∧ (∀ (prices : String → Option ℚ) (p : OptionPosition),
        p.status = PosStatus.OPEN →
          (prices p.symbol = none → monitorStep prices p = p) ∧
          (∀ price : ℚ, prices p.symbol = some price →
            (price ≤ p.stop_loss →
              monitorStep prices p = { p with status := PosStatus.CLOSED_STOP }) ∧
            (p.stop_loss < price → p.take_profit ≤ price →
              monitorStep prices p = { p with status := PosStatus.CLOSED_TARGET }) ∧
            (p.stop_loss < price → price < p.take_profit →
              monitorStep prices p = p))) := by
  refine ⟨fun _ _ => rfl, ?_⟩
  intro prices p hopen
  constructor
  · intro hnone
    simp [monitorStep, hopen, hnone]
  · intro price hsome
    refine ⟨?_, ?_, ?_⟩
    · intro hstop
      simp [monitorStep, hopen, hsome, hstop]
    · intro h1 h2
      simp [monitorStep, hopen, hsome, not_le.2 h1, h2]
    · intro h1 h2
      simp [monitorStep, hopen, hsome, not_le.2 h1, not_le.2 h2]

/-- C3 witness: a concrete OPEN position whose price has fallen to the
stop level is closed as `CLOSED_STOP`. -/
theorem exit_evaluation_transitions_witness :
    monitorStep (fun _ => some (1 / 4))
        ⟨"SPY", 1, 1, 1 / 2, 5 / 2, PosStatus.OPEN⟩ =
      ⟨"SPY", 1, 1, 1 / 2, 5 / 2, PosStatus.CLOSED_STOP⟩ :=
  ((exit_evaluation_transitions.2 (fun _ => some (1 / 4))
      ⟨"SPY", 1, 1, 1 / 2, 5 / 2, PosStatus.OPEN⟩ rfl).2 (1 / 4) rfl).1
    (by norm_num)

/-- C7: for any close series long enough for the 14-period Wilder RSI
to produce a value (at least 15 closes, giving 14 changes), the RSI is
defined and lies in `[0, 100]`, and equals exactly `100` whenever every
change in the window is a gain. -/
theorem rsi_within_bounds :
    ∀ closes : List ℚ, 15 ≤ closes.length →
      ∃ r : ℚ, rsiLast 14 closes = some r ∧ 0 ≤ r ∧ r ≤ 100 ∧
        ((∀ c ∈ changes closes, 0 ≤ c) → r = 100) := by
  intro closes hlen
  have hch : 14 ≤ (changes closes).length := by
    rw [changes_length]; omega
  obtain ⟨g, hg⟩ := wilderSmooth_isSome 14 ((changes closes).map gainOf)
    (by norm_num) (by rw [List.length_map]; exact hch)
  obtain ⟨l, hl⟩ := wilderSmooth_isSome 14 ((changes closes).map lossOf)
    (by norm_num) (by rw [List.length_map]; exact hch)
  have hg0 : 0 ≤ g := wilderSmooth_nonneg 14 _ g hg (by
    intro x hx
    obtain ⟨c, -, rfl⟩ := List.mem_map.1 hx
    exact le_max_right _ _)
  have hl0 : 0 ≤ l := wilderSmooth_nonneg 14 _ l hl (by
    intro x hx
    obtain ⟨c, -, rfl⟩ := List.mem_map.1 hx
    exact le_max_right _ _)
  refine ⟨if l = 0 then 100 else 100 - 100 / (1 + g / l), ?_, ?_, ?_, ?_⟩
  · rw [rsiLast, hg, hl]
  · by_cases h0 : l = 0
    · rw [if_pos h0]; norm_num
    · rw [if_neg h0]
      have hrs : 0 ≤ g / l := div_nonneg hg0 hl0
      have hb : 100 / (1 + g / l) ≤ 100 := div_le_self (by norm_num) (by linarith)
      linarith
  · by_cases h0 : l = 0
    · rw [if_pos h0]
    · rw [if_neg h0]
      have hrs : 0 ≤ g / l := div_nonneg hg0 hl0
      have hb : 0 < 100 / (1 + g / l) := div_pos (by norm_num) (by linarith)
      linarith
  · intro hall
    have h0 : l = 0 := by
      apply wilderSmooth_allzero 14 _ l hl
      intro x hx
      obtain ⟨c, hc, rfl⟩ := List.mem_map.1 hx
      rw [lossOf, max_eq_right (neg_nonpos.2 (hall c hc))]
    rw [if_pos h0]

/-- C7 witness: a strictly rising 15-close series has RSI exactly 100,
and its RSI is inside the bounds. -/
theorem rsi_within_bounds_witness :
    ∃ r : ℚ,
      rsiLast 14 [0, 1, 2, 3, 4, 5, 6, 7, 8, 9, 10, 11, 12, 13, 14] = some r ∧
        0 ≤ r ∧ r ≤ 100 ∧
        ((∀ c ∈ changes [0, 1, 2, 3, 4, 5, 6, 7, 8, 9, 10, 11, 12, 13, 14],
            (0 : ℚ) ≤ c) → r = 100) :=
  rsi_within_bounds _ (by decide)

/-- C10: every ticker produced by `fetch_tickers` — and hence every
ticker announced by a scan cycle or newly added by it to the in-memory
or persisted known set — is non-empty, at most six characters, has its
dot-separated exchange suffix stripped, and is alphanumeric after
removing dash and dot characters; nothing failing this validation is
stored or announced by a cycle. -/
theorem persisted_tickers_validated :
    (∀ (raw : List Ticker) (t : Ticker),
        t ∈ fetch_tickers raw → validatedTicker t)
    ∧ (∀ (s : AgentState) (raw : List Ticker) (ok : Bool) (t : Ticker),
        t ∈ (check_for_new_tickers s (fetch_tickers raw) ok).2 →
          validatedTicker t)
    ∧ (∀ (s : AgentState) (raw : List Ticker) (ok : Bool) (t : Ticker),
        t ∈ (check_for_new_tickers s (fetch_tickers raw) ok).1.known →
          t ∈ s.known ∨ validatedTicker t)
    ∧ (∀ (s : AgentState) (raw : List Ticker) (ok : Bool) (t : Ticker),
        t ∈ (check_for_new_tickers s (fetch_tickers raw) ok).1.persisted →
          t ∈ s.persisted ∨ t ∈ s.known ∨ validatedTicker t) := by
  refine ⟨fetch_tickers_validated, ?_, ?_, ?_⟩
  · intro s raw ok t ht
    rw [check_delta, Finset.mem_sdiff] at ht
    exact fetch_tickers_validated raw t ht.1
  · intro s raw ok t ht
    rw [check_known, Finset.mem_union] at ht
    rcases ht with h | h
    · exact Or.inl h
    · exact Or.inr (fetch_tickers_validated raw t (Finset.mem_sdiff.1 h).1)
  · intro s raw ok t ht
    rcases check_persisted_cases s (fetch_tickers raw) ok with hc | hc
    · rw [hc] at ht
      exact Or.inl ht
    · rw [hc, check_known, Finset.mem_union] at ht
      rcases ht with h | h
      · exact Or.inr (Or.inl h)
      · exact Or.inr (Or.inr (fetch_tickers_validated raw t (Finset.mem_sdiff.1 h).1))

/-- C10 witness: the raw quote symbol `AB.TO` is cleaned to `AB`, which
passes validation. -/
theorem persisted_tickers_validated_witness :
    validatedTicker ['A', 'B'] :=
  persisted_tickers_validated.1 [['A', 'B', '.', 'T', 'O']] ['A', 'B'] (by decide)

/-- C1: with sufficient history (at least 50 bars), `checkBuyCondition`
fires exactly when the current RSI is strictly below 30, the previous
RSI was at or above 30, and the current close is strictly below the
lower Bollinger band (middle − 2 standard deviations); the RSI half of
the condition is a one-shot edge trigger: over any strictly falling RSI
sequence starting at or above 30 and eventually dropping below it, it
fires at exactly one index, and it never fires on a cycle whose
previous RSI was already below 30 (the condition merely continuing to
hold). -/
theorem entry_long_one_shot_trigger :
    (∀ history : List ℚ, 50 ≤ history.length →
      (checkBuyCondition history = true ↔
        (rsiCurrent history < 30 ∧ 30 ≤ rsiPrevious history ∧
          ((currentClose history : ℝ) <
            (sma (bbWindow (windowCloses history)) : ℝ) -
              2 * Real.sqrt ((popVar (bbWindow (windowCloses history)) : ℝ)))))) 
    ∧ (∀ rsi : ℕ → ℚ, StrictAnti rsi → 30 ≤ rsi 0 → (∃ N, rsi N < 30) →
        ∃! i : ℕ, rsiDropped (rsi (i + 1)) (rsi i) = true)
    ∧ (∀ (rsi : ℕ → ℚ) (i : ℕ), rsi i < 30 →
        rsiDropped (rsi (i + 1)) (rsi i) = false) := by
  refine ⟨?_, ?_, ?_⟩
  · intro history hlen
    rw [checkBuyCondition, if_neg (by omega)]
    simp only [rsiDropped, Bool.and_eq_true, decide_eq_true_iff]
    rw [ltLowerBand_iff _ _ _ (popVar_nonneg _), and_assoc]
  · intro rsi hanti h30 hex
    have hcs : rsi (Nat.find hex) < 30 := Nat.find_spec hex
    have hcpos : Nat.find hex ≠ 0 := by
      intro h
      rw [h] at hcs
      exact absurd hcs (not_lt.2 h30)
    have heq : Nat.find hex - 1 + 1 = Nat.find hex := by omega
    refine ⟨Nat.find hex - 1, ?_, ?_⟩
    · simp only [rsiDropped, Bool.and_eq_true, decide_eq_true_iff, heq]
      refine ⟨hcs, ?_⟩
      exact not_lt.1 (Nat.find_min hex (by omega))
    · intro j hj
      simp only [rsiDropped, Bool.and_eq_true, decide_eq_true_iff] at hj
      obtain ⟨hj1, hj2⟩ := hj
      have hle : Nat.find hex ≤ j + 1 := Nat.find_min' hex hj1
      have hlt : j < Nat.find hex := by
        by_contra hge
        push_neg at hge
        have hmono : rsi j ≤ rsi (Nat.find hex) := hanti.antitone hge
        exact absurd hj2 (not_le.2 (lt_of_le_of_lt hmono hcs))
      omega
  · intro rsi i h
    rw [rsiDropped, decide_eq_false (not_le.2 h), Bool.and_false]

/-- C1 witness: the characterization instantiated at a concrete
50-bar history, and the one-shot trigger instantiated at the strictly
falling RSI sequence `40 - n`, which crosses 30 once. -/
theorem entry_long_one_shot_trigger_witness :
    (50 ≤ (List.replicate 50 (0 : ℚ)).length ∧
      (checkBuyCondition (List.replicate 50 (0 : ℚ)) = true ↔
        (rsiCurrent (List.replicate 50 (0 : ℚ)) < 30 ∧
          30 ≤ rsiPrevious (List.replicate 50 (0 : ℚ)) ∧
          ((currentClose (List.replicate 50 (0 : ℚ)) : ℝ) <
            (sma (bbWindow (windowCloses (List.replicate 50 (0 : ℚ)))) : ℝ) -
              2 * Real.sqrt
                ((popVar (bbWindow (windowCloses (List.replicate 50 (0 : ℚ)))) : ℝ))))))
    ∧ (∃! i : ℕ,
        rsiDropped ((fun n : ℕ => (40 : ℚ) - n) (i + 1))
          ((fun n : ℕ => (40 : ℚ) - n) i) = true) := by
  constructor
  · exact ⟨by simp, entry_long_one_shot_trigger.1 _ (by simp)⟩
  · have hanti : StrictAnti (fun n : ℕ => (40 : ℚ) - n) := by
      intro a b hab
      have hab' : (a : ℚ) < (b : ℚ) := by exact_mod_cast hab
      simp only
      linarith
    exact entry_long_one_shot_trigger.2.1 (fun n : ℕ => (40 : ℚ) - n) hanti
      (by norm_num) ⟨11, by norm_num⟩

/-- C4: under the loss-cut policy, a single held position fed one price
per cycle is removed on exactly the first cycle at which its current
value falls to `entryValue - lossThreshold = 1800`; the boundary is
inclusive — a current value of exactly `1800` triggers the sale, while
any value strictly above `1800` does not — and every position created by
the buy step carries `buyValue = BUY_AMOUNT = 2000`. -/
theorem loss_cut_first_cycle_boundary :
    (∀ (q : ℕ → ℚ) (pos : StockPosition), (∀ k, q k ≠ 0) → ∀ n : ℕ,
      ((portfolioAfter (fun k _ => some (q k)) [pos] n = [pos] ∧
        portfolioAfter (fun k _ => some (q k)) [pos] (n + 1) = []) ↔
       (lossCut (q n) pos = true ∧ ∀ m < n, lossCut (q m) pos = false)))
    ∧ (∀ (price : ℚ) (pos : StockPosition),
        price * pos.shares = 1800 → lossCut price pos = true)
    ∧ (∀ (price : ℚ) (pos : StockPosition),
        1800 < price * pos.shares → lossCut price pos = false)
    ∧ (∀ (env : MarketEnv) (pf : List StockPosition) (sym : String),
        ∀ p ∈ buyStep env pf sym, p ∈ pf ∨ p.buyValue = BUY_AMOUNT) := by
  refine ⟨?_, ?_, ?_, buyStep_mem⟩
  · intro q pos hq n
    rw [portfolioAfter_single q pos hq n, portfolioAfter_single q pos hq (n + 1)]
    by_cases h1 : ∀ m < n, lossCut (q m) pos = false
    · rw [if_pos h1]
      by_cases h2 : lossCut (q n) pos = true
      · have hnall : ¬∀ m < n + 1, lossCut (q m) pos = false := by
          intro hfa
          rw [hfa n (Nat.lt_succ_self n)] at h2
          exact Bool.false_ne_true h2
        rw [if_neg hnall]
        exact iff_of_true ⟨rfl, rfl⟩ ⟨h2, h1⟩
      · have h2f : lossCut (q n) pos = false := Bool.not_eq_true _ ▸ h2
        have hall : ∀ m < n + 1, lossCut (q m) pos = false := by
          intro m hm
          rcases Nat.lt_succ_iff_lt_or_eq.1 hm with h | h
          · exact h1 m h
          · rw [h]; exact h2f
        rw [if_pos hall]
        refine iff_of_false (fun hcon => ?_) (fun hcon => ?_)
        · exact absurd hcon.2 (by simp)
        · rw [h2f] at hcon
          exact Bool.false_ne_true hcon.1
    · rw [if_neg h1]
      have h1n : ¬∀ m < n + 1, lossCut (q m) pos = false := by
        intro hfa
        exact h1 fun m hm => hfa m (Nat.lt_succ_of_lt hm)
      rw [if_neg h1n]
      refine iff_of_false (fun hcon => ?_) (fun hcon => ?_)
      · exact absurd hcon.1 (by simp)
      · exact h1 hcon.2
  · intro price pos hval
    simp only [lossCut, BUY_AMOUNT, LOSS_THRESHOLD, decide_eq_true_iff]
    rw [hval]
    norm_num
  · intro price pos hval
    simp only [lossCut, BUY_AMOUNT, LOSS_THRESHOLD]
    rw [decide_eq_false_iff_not]
    intro hle
    norm_num at hle
    linarith

/-- C4 witness: a 20-share position bought at 100 (value 2000) fed
price 100 then 18 survives cycle 1 (value 2000) and is sold at cycle 2
(value 360 ≤ 1800), i.e. on the first qualifying cycle. -/
theorem loss_cut_first_cycle_boundary_witness :
    portfolioAfter (fun k _ => some (if k = 0 then (100 : ℚ) else 18))
        [⟨"A", 100, 20, 2000⟩] 1 = [⟨"A", 100, 20, 2000⟩] ∧
      portfolioAfter (fun k _ => some (if k = 0 then (100 : ℚ) else 18))
        [⟨"A", 100, 20, 2000⟩] 2 = [] :=
  (loss_cut_first_cycle_boundary.1 (fun k => if k = 0 then (100 : ℚ) else 18)
      ⟨"A", 100, 20, 2000⟩
      (fun k => by by_cases hk : k = 0 <;> norm_num [hk]) 1).mpr
    ⟨by norm_num [lossCut, BUY_AMOUNT, LOSS_THRESHOLD],
     by
      intro m hm
      have hm0 : m = 0 := by omega
      subst hm0
      norm_num [lossCut, BUY_AMOUNT, LOSS_THRESHOLD]⟩

/-- C5: every portfolio reachable from the empty portfolio through
scan-and-trade cycles has at most one position per symbol (the mapped
symbol list has no duplicates), and the buy step on a symbol that is
already held returns the portfolio unchanged — no new record, and the
existing position untouched. -/
theorem no_duplicate_open_position :
    (∀ pf : List StockPosition, ReachableState pf →
        (pf.map StockPosition.symbol).Nodup)
    ∧ (∀ (env : MarketEnv) (pf : List StockPosition) (sym : String),
        (∃ p ∈ pf, p.symbol = sym) → buyStep env pf sym = pf) := by
  constructor
  · intro pf h
    induction h with
    | init => simp
    | step prices env trending hr ih =>
        exact scanBuys_symbols_nodup env trending _
          (sellSweep_symbols_nodup prices _ ih)
  · rintro env pf sym ⟨p, hp, he⟩
    rw [buyStep, if_pos]
    exact List.any_eq_true.2 ⟨p, hp, by rw [beq_iff_eq, he]⟩

/-- C5 witness: the empty portfolio is duplicate-free, and buying a
symbol that is already held leaves the concrete one-position portfolio
unchanged. -/
theorem no_duplicate_open_position_witness :
    (([] : List StockPosition).map StockPosition.symbol).Nodup ∧
      buyStep ⟨fun _ => [], fun _ => none⟩
          [⟨"A", 100, 20, 2000⟩] "A" = [⟨"A", 100, 20, 2000⟩] :=
  ⟨no_duplicate_open_position.1 [] ReachableState.init,
   no_duplicate_open_position.2 ⟨fun _ => [], fun _ => none⟩
     [⟨"A", 100, 20, 2000⟩] "A" ⟨⟨"A", 100, 20, 2000⟩, by simp, rfl⟩⟩

/-- C8: a history shorter than the 50-bar indicator window makes
`checkBuyCondition` report no signal, and a trending symbol whose
history is that short has no effect whatsoever on the scan cycle — the
cycle result (positions included) is the same as if the symbol were
absent, so neither the cycle nor any other symbol is affected. -/
theorem insufficient_history_skips_symbol :
    (∀ history : List ℚ, history.length < 50 →
        checkBuyCondition history = false)
    ∧ (∀ (prices : String → Option ℚ) (env : MarketEnv)
        (pf : List StockPosition) (pre post : List String) (sym : String),
        (env.histories sym).length < 50 →
        scanAndTrade prices env (pre ++ sym :: post) pf =
          scanAndTrade prices env (pre ++ post) pf) := by
  refine ⟨checkBuy_short, ?_⟩
  intro prices env pf pre post sym h
  rw [scanAndTrade, scanAndTrade, scanBuys, scanBuys,
    List.foldl_append, List.foldl_append, List.foldl_cons,
    buyStep_of_not_signal env _ sym (checkBuy_short _ h)]

/-- C8 witness: the empty history yields no signal, and a scan over a
trending list containing only a symbol with empty history equals the
scan over the empty trending list. -/
theorem insufficient_history_skips_symbol_witness :
    checkBuyCondition ([] : List ℚ) = false ∧
      scanAndTrade (fun _ => none) ⟨fun _ => [], fun _ => none⟩ ["X"] [] =
        scanAndTrade (fun _ => none) ⟨fun _ => [], fun _ => none⟩ [] [] :=
  ⟨insufficient_history_skips_symbol.1 [] (by decide),
   insufficient_history_skips_symbol.2 (fun _ => none)
     ⟨fun _ => [], fun _ => none⟩ [] [] [] "X" (by decide)⟩

end Claims
